import Mathlib

/-!
Verification development for the Amrita permission subsystem
(`src/amrita/plugins/perm/models.py` and `src/amrita/plugins/perm/API/rules.py`):
the permission-node matcher, the persistent store with its in-memory cache,
the user/group resolution engine, and the event-scoped cache coordinator.
Python coroutines are embedded as explicit state-passing functions; the
relational backing store and the in-memory caches are modelled as lists
and association lists respectively.
-/

namespace Amrita

/-- Modelled from the spec: the repository's `amrita.plugins.perm.nodelib`
module (class `Permissions`) is imported by `models.py` and `rules.py` but its
source is not among the provided files.  Per spec §3/§4.1 a stored permission
entry is a dot-segmented node string, optionally prefixed with a negation
marker (deny) and optionally ending in a wildcard segment that covers the
whole subtree.  We represent a parsed entry: `segments` are the dot-separated
path segments (without the trailing wildcard segment), `wildcard` states
whether the entry ended in the wildcard terminator, and `grant` is false
exactly when the entry carried the negation (deny) prefix. -/
structure PermNode where
  segments : List String
  wildcard : Bool
  grant : Bool
deriving DecidableEq, Repr

/-- Modelled from the spec (§4.1): whether a stored entry matches a
wildcard-free query node (given as its list of dot-separated segments), and
with which specificity (number of segments matched): an exact entry matches
only the identical path with full specificity, a wildcard entry matches every
node below its prefix with the prefix's specificity. -/
def nodeMatch (e : PermNode) (q : List String) : Option Nat :=
  if e.wildcard then
    if e.segments.isPrefixOf q then some e.segments.length else none
  else
    if e.segments = q then some q.length else none

/-- Modelled from the spec (§4.1): combine the best match seen so far with
one entry's match result `(m, g)`; a strictly more specific match replaces
the current best, and at equal specificity deny wins (fail-closed), so the
grant flags are conjoined. -/
def bestStep (cur : Option (Nat × Bool)) (m : Option Nat) (g : Bool) :
    Option (Nat × Bool) :=
  match m with
  | none => cur
  | some s =>
    match cur with
    | none => some (s, g)
    | some (s', g') =>
      if s' < s then some (s, g)
      else if s = s' then some (s, g && g')
      else cur

/-- Modelled from the spec (§4.1): the best `(specificity, grant)` pair over
all stored entries matching the query. -/
def bestMatch (E : List PermNode) (q : List String) : Option (Nat × Bool) :=
  match E with
  | [] => none
  | e :: rest => bestStep (bestMatch rest q) (nodeMatch e q) e.grant

/-- Modelled from the spec (§4.1): `Permissions.check_permission` — return
the grant flag of the most specific matching stored entry (deny wins on
ties), and false when no entry matches (default-deny). -/
def check_permission (E : List PermNode) (q : List String) : Bool :=
  match bestMatch E q with
  | none => false
  | some (_, g) => g

/-- The specificities of all entries matching the query. -/
def matchSpecs (E : List PermNode) (q : List String) : List Nat :=
  E.filterMap (fun e => nodeMatch e q)

/-! ### Association-list helpers (model of Python dict / lru-cache state) -/

def lookupA {α β : Type} [DecidableEq α] : List (α × β) → α → Option β
  | [], _ => none
  | (k, v) :: rest, k' => if k = k' then some v else lookupA rest k'

def eraseA {α β : Type} [DecidableEq α] (l : List (α × β)) (k : α) : List (α × β) :=
  l.filter (fun p => decide (p.1 ≠ k))

def insertA {α β : Type} [DecidableEq α] (l : List (α × β)) (k : α) (v : β) : List (α × β) :=
  (k, v) :: eraseA l k

/-- Python `set.add` on a list-modelled set. -/
def insertS {α : Type} [DecidableEq α] (l : List α) (x : α) : List α :=
  if x ∈ l then l else x :: l

theorem lookupA_insertA_self {α β : Type} [DecidableEq α]
    (l : List (α × β)) (k : α) (v : β) : lookupA (insertA l k v) k = some v := by
  simp [insertA, lookupA]

theorem lookupA_eraseA_self {α β : Type} [DecidableEq α]
    (l : List (α × β)) (k : α) : lookupA (eraseA l k) k = none := by
  induction l with
  | nil => rfl
  | cons p rest ih =>
    by_cases h : p.1 = k
    · simp [eraseA, List.filter, h] at ih ⊢
      exact ih
    · simp only [eraseA, List.filter, decide_not] at ih ⊢
      simp [h, lookupA, ih]

theorem lookupA_eraseA_ne {α β : Type} [DecidableEq α]
    (l : List (α × β)) (k k' : α) (h : k ≠ k') :
    lookupA (eraseA l k') k = lookupA l k := by
  have h' : k' ≠ k := Ne.symm h
  induction l with
  | nil => rfl
  | cons p rest ih =>
    by_cases hp : p.1 = k'
    · simp only [eraseA, List.filter, decide_not] at ih ⊢
      simp [hp, lookupA, h', ih]
    · simp only [eraseA, List.filter, decide_not] at ih ⊢
      by_cases hk : p.1 = k
      · simp [hp, lookupA, hk, h, h']
      · simp [hp, lookupA, hk, ih]

theorem lookupA_eraseA_none {α β : Type} [DecidableEq α]
    (l : List (α × β)) (k k' : α) (h : lookupA l k = none) :
    lookupA (eraseA l k') k = none := by
  by_cases hk : k = k'
  · rw [hk]; exact lookupA_eraseA_self l k'
  · rw [lookupA_eraseA_ne l k k' hk]; exact h

/-! ### Data model (`src/amrita/plugins/perm/models.py`) -/

/-- `PERM_TYPE = Literal["group", "user"]`. -/
inductive PermType where
  | user
  | group
deriving DecidableEq, Repr

/-- Row of table `lp_member_permission` (`class MemberPermission`); the
autoincrement surrogate `id` plays no role in the claims and is omitted.
The JSON `permissions` payload is the (parsed) list of permission entries,
`permission_groups` the list of group names. -/
structure MemberRow where
  any_id : String
  type : PermType
  permissions : List PermNode
  permission_groups : List String
deriving DecidableEq, Repr

/-- Row of table `lp_permission_group` (`class PermissionGroup`). -/
structure GroupRow where
  group_name : String
  permissions : List PermNode
deriving DecidableEq, Repr

/-- The relational backing store: the two tables. -/
structure DB where
  members : List MemberRow
  groups : List GroupRow
deriving DecidableEq, Repr

/-- `class MemberPermissionPydantic`. -/
structure MemberPermissionPydantic where
  any_id : String
  type : PermType
  permissions : List PermNode
  permission_groups : List String
deriving DecidableEq, Repr

/-- `class PermissionGroupPydantic`. -/
structure PermissionGroupPydantic where
  group_name : String
  permissions : List PermNode
deriving DecidableEq, Repr

/-- `MemberPermissionPydantic.model_validate(result, from_attributes=True)`. -/
def memberSnapshot (r : MemberRow) : MemberPermissionPydantic :=
  ⟨r.any_id, r.type, r.permissions, r.permission_groups⟩

/-- `PermissionGroupPydantic.model_validate(result, from_attributes=True)`. -/
def groupSnapshot (r : GroupRow) : PermissionGroupPydantic :=
  ⟨r.group_name, r.permissions⟩

/-- Predicate of `select(MemberPermission).where(any_id == ..., type == ...)`. -/
def memberKeyMatch (any_id : String) (tp : PermType) (r : MemberRow) : Bool :=
  decide (r.any_id = any_id) && decide (r.type = tp)

/-- Predicate of `select(PermissionGroup).where(group_name == ...)`. -/
def groupKeyMatch (group_name : String) (r : GroupRow) : Bool :=
  decide (r.group_name = group_name)

/-- `(await session.execute(stmt)).scalar_one_or_none()` for members. -/
def dbFindMember (db : DB) (any_id : String) (tp : PermType) : Option MemberRow :=
  db.members.find? (memberKeyMatch any_id tp)

/-- `(await session.execute(stmt)).scalar_one_or_none()` for groups. -/
def dbFindGroup (db : DB) (group_name : String) : Option GroupRow :=
  db.groups.find? (groupKeyMatch group_name)

/-- Number of backing rows for one member key. -/
def countMemberRows (db : DB) (any_id : String) (tp : PermType) : Nat :=
  (db.members.filter (memberKeyMatch any_id tp)).length

/-- State of the `PermissionStroage` singleton: the backing store plus the
two in-memory caches `_cached_any_permission_data` and
`_cached_permission_group_data` (the per-key `asyncio.Lock` table only
serializes coroutines and carries no data, so it is not part of the state). -/
structure PermissionStroage where
  db : DB
  cached_any_permission_data : List ((String × PermType) × MemberPermissionPydantic)
  cached_permission_group_data : List (String × PermissionGroupPydantic)
deriving DecidableEq, Repr

/-- `PermissionStroage.permission_group_exists`: true when the name is in the
group cache, otherwise whether the select finds a row; no mutation. -/
def permission_group_exists (s : PermissionStroage) (group_name : String) :
    Bool × PermissionStroage :=
  if (lookupA s.cached_permission_group_data group_name).isSome then (true, s)
  else ((dbFindGroup s.db group_name).isSome, s)

/-- Database path of `PermissionStroage.get_member_permission` (the body under
`async with get_session()`): select; on absence insert an empty row
(`permissions={}, permission_groups=[]`) and commit; snapshot; store the
snapshot in the cache unless `no_cache`. -/
def get_member_permission_load (s : PermissionStroage) (any_id : String)
    (tp : PermType) (no_cache : Bool) : MemberPermissionPydantic × PermissionStroage :=
  match dbFindMember s.db any_id tp with
  | some r =>
    let data := memberSnapshot r
    if no_cache then (data, s)
    else (data, { s with
      cached_any_permission_data := insertA s.cached_any_permission_data (any_id, tp) data })
  | none =>
    let r : MemberRow := ⟨any_id, tp, [], []⟩
    let db2 : DB := { s.db with members := s.db.members ++ [r] }
    let data := memberSnapshot r
    if no_cache then (data, { s with db := db2 })
    else (data, { s with
      db := db2
      cached_any_permission_data := insertA s.cached_any_permission_data (any_id, tp) data })

/-- `PermissionStroage.get_member_permission`: return the cached snapshot
unless `no_cache` or absent; otherwise the database path. -/
def get_member_permission (s : PermissionStroage) (any_id : String)
    (tp : PermType) (no_cache : Bool) : MemberPermissionPydantic × PermissionStroage :=
  match no_cache, lookupA s.cached_any_permission_data (any_id, tp) with
  | false, some data => (data, s)
  | false, none => get_member_permission_load s any_id tp false
  | true, _ => get_member_permission_load s any_id tp true

/-- Database path of `PermissionStroage.get_permission_group`. -/
def get_permission_group_load (s : PermissionStroage) (group_name : String)
    (no_cache : Bool) : PermissionGroupPydantic × PermissionStroage :=
  match dbFindGroup s.db group_name with
  | some r =>
    let data := groupSnapshot r
    if no_cache then (data, s)
    else (data, { s with
      cached_permission_group_data := insertA s.cached_permission_group_data group_name data })
  | none =>
    let r : GroupRow := ⟨group_name, []⟩
    let db2 : DB := { s.db with groups := s.db.groups ++ [r] }
    let data := groupSnapshot r
    if no_cache then (data, { s with db := db2 })
    else (data, { s with
      db := db2
      cached_permission_group_data := insertA s.cached_permission_group_data group_name data })

/-- `PermissionStroage.get_permission_group`. -/
def get_permission_group (s : PermissionStroage) (group_name : String)
    (no_cache : Bool) : PermissionGroupPydantic × PermissionStroage :=
  match no_cache, lookupA s.cached_permission_group_data group_name with
  | false, some data => (data, s)
  | false, none => get_permission_group_load s group_name false
  | true, _ => get_permission_group_load s group_name true

/-- `PermissionStroage.refresh_member_permission`: pop the cache entry, then
select; raise `ValueError` (modelled as `Except.error`) when the row is
absent, else cache and return the fresh snapshot. -/
def refresh_member_permission (s : PermissionStroage) (member_id : String)
    (member_type : PermType) : Except String MemberPermissionPydantic × PermissionStroage :=
  let cache1 := eraseA s.cached_any_permission_data (member_id, member_type)
  match dbFindMember s.db member_id member_type with
  | none =>
    (Except.error "Member not found", { s with cached_any_permission_data := cache1 })
  | some r =>
    let data := memberSnapshot r
    (Except.ok data,
      { s with cached_any_permission_data := insertA cache1 (member_id, member_type) data })

/-- `PermissionStroage.refresh_permission_group`: same shape for groups. -/
def refresh_permission_group (s : PermissionStroage) (group_name : String) :
    Except String PermissionGroupPydantic × PermissionStroage :=
  let cache1 := eraseA s.cached_permission_group_data group_name
  match dbFindGroup s.db group_name with
  | none =>
    (Except.error "Permission group not found",
      { s with cached_permission_group_data := cache1 })
  | some r =>
    let data := groupSnapshot r
    (Except.ok data,
      { s with cached_permission_group_data := insertA cache1 group_name data })

/-- `PermissionStroage.update_permission_group`: upsert the row (insert when
absent, else overwrite its `permissions`), then write the given data into the
group cache. -/
def update_permission_group (s : PermissionStroage) (data : PermissionGroupPydantic) :
    PermissionStroage :=
  let db2 : DB :=
    match dbFindGroup s.db data.group_name with
    | none => { s.db with groups := s.db.groups ++ [⟨data.group_name, data.permissions⟩] }
    | some _ => { s.db with groups := s.db.groups.map (fun r =>
        if groupKeyMatch data.group_name r then { r with permissions := data.permissions } else r) }
  { s with
    db := db2
    cached_permission_group_data :=
      insertA s.cached_permission_group_data data.group_name data }

/-- `PermissionStroage.update_member_permission`: upsert the member row, then
write the given data into the member cache. -/
def update_member_permission (s : PermissionStroage) (data : MemberPermissionPydantic) :
    PermissionStroage :=
  let db2 : DB :=
    match dbFindMember s.db data.any_id data.type with
    | none => { s.db with members :=
        s.db.members ++ [⟨data.any_id, data.type, data.permissions, data.permission_groups⟩] }
    | some _ => { s.db with members := s.db.members.map (fun r =>
        if memberKeyMatch data.any_id data.type r then
          { r with permissions := data.permissions,
                   permission_groups := data.permission_groups } else r) }
  { s with
    db := db2
    cached_any_permission_data :=
      insertA s.cached_any_permission_data (data.any_id, data.type) data }

/-! ### Resolution engine and event-scoped coordinator
(`src/amrita/plugins/perm/API/rules.py`) -/

/-- Modelled from the spec: `PermissionStorage.get_member_related_permission_groups`
is called by the resolution engine in `rules.py` but is not defined in the
provided `models.py`; per spec §4.4 it yields the entity's permission-group
memberships, i.e. the member record's `permission_groups`. -/
def get_member_related_permission_groups (s : PermissionStroage) (any_id : String)
    (tp : PermType) : MemberPermissionPydantic × PermissionStroage :=
  get_member_permission s any_id tp false

/-- The `for permg in perm_groups:` loop shared by both cached check
functions: skip names failing `permission_group_exists`, load each existing
group through the cache and return true on the first group whose permissions
grant the node. -/
def checkGroupsLoop (s : PermissionStroage) (gs : List String) (perm : List String) :
    Bool × PermissionStroage :=
  match gs with
  | [] => (false, s)
  | g :: rest =>
    let r1 := permission_group_exists s g
    if r1.1 then
      let r2 := get_permission_group r1.2 g false
      if check_permission r2.1.permissions perm then (true, r2.2)
      else checkGroupsLoop r2.2 rest perm
    else checkGroupsLoop r1.2 rest perm

/-- Body of `_check_user_permission_with_cache` (the uncached resolution):
load the member record, load its permission-group memberships, run the group
loop, and only when no group granted fall back to the node-matching function
on the direct permissions.  The query node is carried as its segment list. -/
def check_user_permission (s : PermissionStroage) (user_id : String)
    (perm : List String) : Bool × PermissionStroage :=
  let r1 := get_member_permission s user_id PermType.user false
  let r2 := get_member_related_permission_groups r1.2 user_id PermType.user
  let r3 := checkGroupsLoop r2.2 r2.1.permission_groups perm
  if r3.1 then (true, r3.2)
  else (check_permission r1.1.permissions perm, r3.2)

/-- Body of `_check_group_permission_with_cache` (the uncached resolution);
identical shape for `(group_id, "group")`, and the `only_group` flag is not
consulted by the body (it is only part of the memoization key). -/
def check_group_permission (s : PermissionStroage) (group_id : String)
    (perm : List String) : Bool × PermissionStroage :=
  let r1 := get_member_permission s group_id PermType.group false
  let r2 := get_member_related_permission_groups r1.2 group_id PermType.group
  let r3 := checkGroupsLoop r2.2 r2.1.permission_groups perm
  if r3.1 then (true, r3.2)
  else (check_permission r1.1.permissions perm, r3.2)

/-- Value of `_event_permission_mapping[event_id]`: the sets of
`(user_id, permission)` and `(group_id, permission)` tuples touched. -/
structure EventPermRecord where
  users : List (String × List String)
  groups : List (String × List String)
deriving DecidableEq, Repr

/-- Module-level mutable state of `rules.py`: the permission store singleton,
the two `alru_cache` memoization tables (`_user_cache_ref`,
`_group_cache_ref`) and `_event_permission_mapping`. -/
structure RulesState where
  store : PermissionStroage
  user_cache : List ((String × List String) × Bool)
  group_cache : List ((String × List String × Bool) × Bool)
  event_mapping : List (String × EventPermRecord)
deriving DecidableEq, Repr

/-- `register_event_permission`: add `(user_id, permission)` to the event's
user set when `user_id` is given, and `(group_id, permission)` to its group
set when `group_id` is given (the defaultdict supplies empty sets). -/
def register_event_permission (st : RulesState) (event_id : String)
    (user_id : Option String) (group_id : Option String) (perm : List String) :
    RulesState :=
  let e0 := (lookupA st.event_mapping event_id).getD ⟨[], []⟩
  let e1 :=
    match user_id with
    | some u => { e0 with users := insertS e0.users (u, perm) }
    | none => e0
  let e2 :=
    match group_id with
    | some g => { e1 with groups := insertS e1.groups (g, perm) }
    | none => e1
  { st with event_mapping := insertA st.event_mapping event_id e2 }

/-- `_check_user_permission_with_cache` with its `alru_cache` memoization:
return the memoized answer for `(user_id, perm)` when present, else compute
the resolution and memoize it. -/
def check_user_permission_with_cache (st : RulesState) (user_id : String)
    (perm : List String) : Bool × RulesState :=
  match lookupA st.user_cache (user_id, perm) with
  | some b => (b, st)
  | none =>
    let r := check_user_permission st.store user_id perm
    (r.1, { st with
      store := r.2
      user_cache := insertA st.user_cache (user_id, perm) r.1 })

/-- `_check_group_permission_with_cache` with its `alru_cache` memoization,
keyed by `(group_id, perm, only_group)`. -/
def check_group_permission_with_cache (st : RulesState) (group_id : String)
    (perm : List String) (only_group : Bool) : Bool × RulesState :=
  match lookupA st.group_cache (group_id, perm, only_group) with
  | some b => (b, st)
  | none =>
    let r := check_group_permission st.store group_id perm
    (r.1, { st with
      store := r.2
      group_cache := insertA st.group_cache (group_id, perm, only_group) r.1 })

/-- `expire_event_cache`: return immediately when the event id is unknown;
otherwise invalidate the memoized user entry for every recorded
`(user_id, permission)` pair, invalidate both `only_group` variants for every
recorded `(group_id, permission)` pair, and delete the event's mapping
entry.  Cache invalidation (`_expire_cache_by_key`) is modelled as removal of
the memoization key. -/
def expire_event_cache (st : RulesState) (event_id : String) : RulesState :=
  match lookupA st.event_mapping event_id with
  | none => st
  | some entry =>
    let ucache := entry.users.foldl (fun c k => eraseA c k) st.user_cache
    let gcache := entry.groups.foldl
      (fun c k => eraseA (eraseA c (k.1, k.2, true)) (k.1, k.2, false)) st.group_cache
    { st with
      user_cache := ucache
      group_cache := gcache
      event_mapping := eraseA st.event_mapping event_id }

/-- Events as far as the checkers observe them: either one of the group
event classes (`GroupEvent`), carrying `group_id` and the sender's user id,
or any other event, carrying only `event.get_user_id()`. -/
inductive PEvent where
  | groupEvent (group_id : String) (user_id : String)
  | otherEvent (user_id : String)
deriving DecidableEq, Repr

/-- `UserPermissionChecker._check_permission`: register the
`(user_id, permission)` usage for the event, then answer from the memoized
user check. -/
def userChecker_check (st : RulesState) (ev : PEvent) (perm : List String)
    (event_id : String) : Bool × RulesState :=
  let uid := match ev with
    | .groupEvent _ u => u
    | .otherEvent u => u
  let st1 := register_event_permission st event_id (some uid) none perm
  check_user_permission_with_cache st1 uid perm

/-- `GroupPermissionChecker._check_permission`: a non-group event passes
unconditionally when `only_group` is false and fails unconditionally when
`only_group` is true; a group event registers `(user_id, perm)` and
`(group_id, perm)` for the event and answers from the memoized group check
keyed by `(group_id, perm, only_group)`. -/
def groupChecker_check (st : RulesState) (only_group : Bool) (ev : PEvent)
    (perm : List String) (event_id : String) : Bool × RulesState :=
  match ev with
  | .otherEvent _ =>
    if !only_group then (true, st) else (false, st)
  | .groupEvent gid uid =>
    let st1 := register_event_permission st event_id (some uid) (some gid) perm
    check_group_permission_with_cache st1 gid perm only_group

/-! ### Concrete instances used in witnesses and counterexamples -/

/-- A fresh store: empty database, empty caches. -/
def emptyStroage : PermissionStroage := ⟨⟨[], []⟩, [], []⟩

/-- Member `u1` explicitly denies the exact node `chat.admin` in its direct
permissions and belongs to group `g`; group `g` grants the wildcard
`chat.*`. -/
def cexDB : DB :=
  ⟨[⟨"u1", PermType.user, [⟨["chat", "admin"], false, false⟩], ["g"]⟩],
   [⟨"g", [⟨["chat"], true, true⟩]⟩]⟩

/-- Store over `cexDB` with cold caches. -/
def cexStroage : PermissionStroage := ⟨cexDB, [], []⟩

/-- Rules-module state over `cexStroage` with cold memoization caches. -/
def cexRules : RulesState := ⟨cexStroage, [], [], []⟩

/-- A member row and a group row present in the backing store. -/
def popMemberRow : MemberRow :=
  ⟨"u1", PermType.user, [⟨["chat", "use"], false, true⟩], ["g"]⟩

def popGroupRow : GroupRow := ⟨"g", [⟨["chat"], true, true⟩]⟩

/-- Stale cached snapshots that differ from the backing rows, to exhibit
fresh (cache-bypassing) reads. -/
def staleMemberData : MemberPermissionPydantic := ⟨"u1", PermType.user, [], []⟩

def staleGroupData : PermissionGroupPydantic := ⟨"g", []⟩

/-- Store whose caches hold stale snapshots of both backing rows. -/
def popStroage : PermissionStroage :=
  ⟨⟨[popMemberRow], [popGroupRow]⟩,
   [(("u1", PermType.user), staleMemberData)],
   [("g", staleGroupData)]⟩

/-- An event record touching one user pair and one group pair. -/
def wEventRecord : EventPermRecord :=
  ⟨[("u1", ["chat", "admin"])], [("g1", ["n"])]⟩

/-- Rules-module state with memoized entries for exactly the recorded pairs
of event `ev1`. -/
def wRulesState : RulesState :=
  ⟨emptyStroage,
   [(("u1", ["chat", "admin"]), true)],
   [(("g1", ["n"], true), true), (("g1", ["n"], false), false)],
   [("ev1", wEventRecord)]⟩

/-! ## Theorems -/

/-- C3: for every event that is not a group-scoped event, the group
permission check (`GroupPermissionChecker._check_permission`) with
`only_group=false` returns true unconditionally without consulting or
changing any state, and with `only_group=true` it returns false
unconditionally; for group-scoped events it returns the result of the cached
group permission resolution for `(group_id, node, only_group)` evaluated
after registering the event's permission usage. -/
theorem group_checker_nonGroup_policy :
    ∀ (st : RulesState) (uid gid : String) (perm : List String) (eid : String),
      groupChecker_check st false (PEvent.otherEvent uid) perm eid = (true, st) ∧
      groupChecker_check st true (PEvent.otherEvent uid) perm eid = (false, st) ∧
      (∀ og : Bool,
        groupChecker_check st og (PEvent.groupEvent gid uid) perm eid =
          check_group_permission_with_cache
            (register_event_permission st eid (some uid) (some gid) perm) gid perm og) :=
  fun _ _ _ _ _ => ⟨rfl, rfl, fun _ => rfl⟩

/-- C7: after `update_permission_group(g)` completes, a subsequent
`get_permission_group(g.group_name)` returns the updated data `g` (the
update wrote `g` through to the group cache, so the read is a cache hit that
also leaves the state unchanged). -/
theorem update_then_get_permission_group :
    ∀ (s : PermissionStroage) (g : PermissionGroupPydantic),
      get_permission_group (update_permission_group s g) g.group_name false =
        (g, update_permission_group s g) := by
  intro s g
  have hc : lookupA (update_permission_group s g).cached_permission_group_data
      g.group_name = some g := by
    unfold update_permission_group
    exact lookupA_insertA_self _ _ _
  unfold get_permission_group
  rw [hc]

/-- C8: `permission_group_exists(name)` returns true iff the group is
present in the in-memory group cache or in the backing store, and it leaves
the store state (database and both caches) entirely unchanged. -/
theorem permission_group_exists_frame :
    ∀ (s : PermissionStroage) (name : String),
      ((permission_group_exists s name).1 = true ↔
        (lookupA s.cached_permission_group_data name).isSome = true ∨
        (dbFindGroup s.db name).isSome = true) ∧
      (permission_group_exists s name).2 = s := by
  intro s name
  unfold permission_group_exists
  by_cases h : (lookupA s.cached_permission_group_data name).isSome
  · simp [h]
  · simp [h]

/-- C9: `get_member_permission(id, type, no_cache=True)` and
`get_permission_group(name, no_cache=True)` leave both in-memory cache
mappings entirely unchanged, and the returned data is the backing row's
fresh snapshot whenever the row exists (even when the cache holds a
different, stale entry). -/
theorem get_no_cache_frame :
    ∀ (s : PermissionStroage) (any_id : String) (tp : PermType) (name : String),
      (get_member_permission s any_id tp true).2.cached_any_permission_data =
        s.cached_any_permission_data ∧
      (get_member_permission s any_id tp true).2.cached_permission_group_data =
        s.cached_permission_group_data ∧
      (get_permission_group s name true).2.cached_any_permission_data =
        s.cached_any_permission_data ∧
      (get_permission_group s name true).2.cached_permission_group_data =
        s.cached_permission_group_data ∧
      (∀ r, dbFindMember s.db any_id tp = some r →
        (get_member_permission s any_id tp true).1 = memberSnapshot r) ∧
      (∀ r, dbFindGroup s.db name = some r →
        (get_permission_group s name true).1 = groupSnapshot r) := by
  intro s any_id tp name
  have hm : get_member_permission s any_id tp true =
      get_member_permission_load s any_id tp true := rfl
  have hg : get_permission_group s name true =
      get_permission_group_load s name true := rfl
  rw [hm, hg]
  refine ⟨?_, ?_, ?_, ?_, ?_, ?_⟩
  · unfold get_member_permission_load
    cases hr : dbFindMember s.db any_id tp <;> simp [hr]
  · unfold get_member_permission_load
    cases hr : dbFindMember s.db any_id tp <;> simp [hr]
  · unfold get_permission_group_load
    cases hr : dbFindGroup s.db name <;> simp [hr]
  · unfold get_permission_group_load
    cases hr : dbFindGroup s.db name <;> simp [hr]
  · intro r hr
    unfold get_member_permission_load
    simp [hr]
  · intro r hr
    unfold get_permission_group_load
    simp [hr]

/-- C9 witness: on a store whose caches hold stale snapshots, the
no-cache reads return the backing rows' data and leave both caches as they
were. -/
theorem get_no_cache_frame_witness :
    (get_member_permission popStroage "u1" PermType.user true).2.cached_any_permission_data =
      popStroage.cached_any_permission_data ∧
    (get_permission_group popStroage "g" true).2.cached_permission_group_data =
      popStroage.cached_permission_group_data ∧
    (get_member_permission popStroage "u1" PermType.user true).1 =
      memberSnapshot popMemberRow ∧
    (get_permission_group popStroage "g" true).1 = groupSnapshot popGroupRow := by
  have h := get_no_cache_frame popStroage "u1" PermType.user "g"
  exact ⟨h.1, h.2.2.2.1, h.2.2.2.2.1 popMemberRow rfl, h.2.2.2.2.2 popGroupRow rfl⟩

/-- C5: for a `(id, type)` pair with no backing record (and no cached
snapshot), `get_member_permission` implicitly creates and persists a record
with empty permissions and empty permission groups before returning it;
calling it twice returns the same empty record both times and the second
call changes nothing, so exactly one backing row exists after either
call (get-or-create idempotence). -/
theorem get_member_permission_get_or_create :
    ∀ (s : PermissionStroage) (any_id : String) (tp : PermType),
      dbFindMember s.db any_id tp = none →
      lookupA s.cached_any_permission_data (any_id, tp) = none →
      (get_member_permission s any_id tp false).1 =
        (⟨any_id, tp, [], []⟩ : MemberPermissionPydantic) ∧
      countMemberRows (get_member_permission s any_id tp false).2.db any_id tp = 1 ∧
      get_member_permission (get_member_permission s any_id tp false).2 any_id tp false =
        get_member_permission s any_id tp false := by
  intro s a t h1 h2
  have e1 : get_member_permission s a t false =
      (⟨a, t, [], []⟩,
        { s with
          db := { s.db with members := s.db.members ++ [⟨a, t, [], []⟩] }
          cached_any_permission_data :=
            insertA s.cached_any_permission_data (a, t) ⟨a, t, [], []⟩ }) := by
    unfold get_member_permission
    rw [h2]
    unfold get_member_permission_load
    rw [h1]
    rfl
  rw [e1]
  refine ⟨rfl, ?_, ?_⟩
  · unfold countMemberRows
    have hnil : s.db.members.filter (memberKeyMatch a t) = [] := by
      rw [List.filter_eq_nil_iff]
      intro r hr
      have := List.find?_eq_none.mp h1 r hr
      simpa using this
    simp [List.filter_append, hnil, memberKeyMatch]
  · unfold get_member_permission
    rw [lookupA_insertA_self]

/-- C5 witness: on the empty store the get-or-create behaviour is exhibited
for the concrete member `("u1", user)`. -/
theorem get_member_permission_get_or_create_witness :
    (get_member_permission emptyStroage "u1" PermType.user false).1 =
      (⟨"u1", PermType.user, [], []⟩ : MemberPermissionPydantic) ∧
    countMemberRows (get_member_permission emptyStroage "u1" PermType.user false).2.db
      "u1" PermType.user = 1 := by
  have h := get_member_permission_get_or_create emptyStroage "u1" PermType.user rfl rfl
  exact ⟨h.1, h.2.1⟩

/-- C6: refreshing a member or a permission group that has no backing record
surfaces a NotFound-kind error (never an `ok` value) and leaves the backing
store unchanged (no implicit creation), whereas the corresponding get
operations implicitly create the missing record. -/
theorem refresh_missing_errors_without_creating :
    ∀ (s : PermissionStroage) (any_id : String) (tp : PermType) (name : String),
      dbFindMember s.db any_id tp = none →
      dbFindGroup s.db name = none →
      lookupA s.cached_any_permission_data (any_id, tp) = none →
      lookupA s.cached_permission_group_data name = none →
      (∀ d, (refresh_member_permission s any_id tp).1 ≠ Except.ok d) ∧
      (refresh_member_permission s any_id tp).2.db = s.db ∧
      (∀ d, (refresh_permission_group s name).1 ≠ Except.ok d) ∧
      (refresh_permission_group s name).2.db = s.db ∧
      (dbFindMember (get_member_permission s any_id tp false).2.db any_id tp).isSome = true ∧
      (dbFindGroup (get_permission_group s name false).2.db name).isSome = true := by
  intro s a t name h1 h2 h3 h4
  refine ⟨?_, ?_, ?_, ?_, ?_, ?_⟩
  · intro d
    unfold refresh_member_permission
    rw [h1]
    simp
  · unfold refresh_member_permission
    rw [h1]
  · intro d
    unfold refresh_permission_group
    rw [h2]
    simp
  · unfold refresh_permission_group
    rw [h2]
  · have e1 : get_member_permission s a t false = get_member_permission_load s a t false := by
      unfold get_member_permission
      rw [h3]
    rw [e1]
    unfold get_member_permission_load
    rw [h1]
    unfold dbFindMember
    simp [List.find?_append, List.find?_eq_none.mp h1, memberKeyMatch]
  · have e1 : get_permission_group s name false = get_permission_group_load s name false := by
      unfold get_permission_group
      rw [h4]
    rw [e1]
    unfold get_permission_group_load
    rw [h2]
    unfold dbFindGroup
    simp [List.find?_append, List.find?_eq_none.mp h2, groupKeyMatch]

/-- C6 witness: on the empty store, refreshing the member `("u1", user)` and
the group `"g"` errors without creating rows, while the gets create them. -/
theorem refresh_missing_errors_without_creating_witness :
    (∀ d, (refresh_member_permission emptyStroage "u1" PermType.user).1 ≠ Except.ok d) ∧
    (refresh_member_permission emptyStroage "u1" PermType.user).2.db = emptyStroage.db ∧
    (∀ d, (refresh_permission_group emptyStroage "g").1 ≠ Except.ok d) ∧
    (refresh_permission_group emptyStroage "g").2.db = emptyStroage.db ∧
    (dbFindMember (get_member_permission emptyStroage "u1" PermType.user false).2.db
      "u1" PermType.user).isSome = true ∧
    (dbFindGroup (get_permission_group emptyStroage "g" false).2.db "g").isSome = true :=
  refresh_missing_errors_without_creating emptyStroage "u1" PermType.user "g"
    rfl rfl rfl rfl

/-- Erasing a list of keys preserves absence. -/
theorem lookupA_foldl_eraseA_none {α β : Type} [DecidableEq α]
    (ks : List α) (c : List (α × β)) (k : α) (h : lookupA c k = none) :
    lookupA (ks.foldl (fun c k => eraseA c k) c) k = none := by
  induction ks generalizing c with
  | nil => exact h
  | cons a ks ih =>
    exact ih (eraseA c a) (lookupA_eraseA_none c k a h)

/-- After erasing every key of a list, each of them is absent. -/
theorem lookupA_foldl_eraseA_mem {α β : Type} [DecidableEq α]
    (ks : List α) (c : List (α × β)) (k : α) (h : k ∈ ks) :
    lookupA (ks.foldl (fun c k => eraseA c k) c) k = none := by
  induction ks generalizing c with
  | nil => cases h
  | cons a ks ih =>
    rcases List.mem_cons.mp h with h1 | h2
    · subst h1
      exact lookupA_foldl_eraseA_none ks (eraseA c k) k (lookupA_eraseA_self c k)
    · exact ih (eraseA c a) h2

/-- The double-erase fold used for the group cache preserves absence. -/
theorem lookupA_gfold_none {β : Type} (ks : List (String × List String))
    (c : List ((String × List String × Bool) × β)) (key : String × List String × Bool)
    (h : lookupA c key = none) :
    lookupA (ks.foldl
      (fun c k => eraseA (eraseA c (k.1, k.2, true)) (k.1, k.2, false)) c) key = none := by
  induction ks generalizing c with
  | nil => exact h
  | cons a ks ih =>
    exact ih _ (lookupA_eraseA_none _ key _ (lookupA_eraseA_none _ key _ h))

/-- After the double-erase fold, both `only_group` variants of every listed
`(group_id, permission)` pair are absent. -/
theorem lookupA_gfold_mem {β : Type} (ks : List (String × List String))
    (c : List ((String × List String × Bool) × β)) (g : String) (p : List String)
    (og : Bool) (h : (g, p) ∈ ks) :
    lookupA (ks.foldl
      (fun c k => eraseA (eraseA c (k.1, k.2, true)) (k.1, k.2, false)) c) (g, p, og) = none := by
  induction ks generalizing c with
  | nil => cases h
  | cons a ks ih =>
    rcases List.mem_cons.mp h with h1 | h2
    · subst h1
      cases og with
      | true =>
        exact lookupA_gfold_none ks (eraseA (eraseA c (g, p, true)) (g, p, false))
          (g, p, true)
          (lookupA_eraseA_none (eraseA c (g, p, true)) (g, p, true) (g, p, false)
            (lookupA_eraseA_self c (g, p, true)))
      | false =>
        exact lookupA_gfold_none ks (eraseA (eraseA c (g, p, true)) (g, p, false))
          (g, p, false)
          (lookupA_eraseA_self (eraseA c (g, p, true)) (g, p, false))
    · exact ih (eraseA (eraseA c (a.1, a.2, true)) (a.1, a.2, false)) h2

/-- C4: after `expire_event_cache(event_id)` completes, every recorded
`(user_id, node)` memoized user-check entry is invalidated, both `only_group`
variants of every recorded `(group_id, node)` memoized group-check entry are
invalidated, and the event id is absent from the event permission mapping; a
second call with the same event id is a no-op returning the state
unchanged. -/
theorem expire_event_cache_correct :
    ∀ (st : RulesState) (eid : String) (entry : EventPermRecord),
      lookupA st.event_mapping eid = some entry →
      (∀ k ∈ entry.users, lookupA (expire_event_cache st eid).user_cache k = none) ∧
      (∀ k ∈ entry.groups,
        lookupA (expire_event_cache st eid).group_cache (k.1, k.2, true) = none ∧
        lookupA (expire_event_cache st eid).group_cache (k.1, k.2, false) = none) ∧
      lookupA (expire_event_cache st eid).event_mapping eid = none ∧
      expire_event_cache (expire_event_cache st eid) eid = expire_event_cache st eid := by
  intro st eid entry hm
  have he : expire_event_cache st eid =
      { st with
        user_cache := entry.users.foldl (fun c k => eraseA c k) st.user_cache
        group_cache := entry.groups.foldl
          (fun c k => eraseA (eraseA c (k.1, k.2, true)) (k.1, k.2, false)) st.group_cache
        event_mapping := eraseA st.event_mapping eid } := by
    unfold expire_event_cache
    rw [hm]
  rw [he]
  refine ⟨?_, ?_, ?_, ?_⟩
  · intro k hk
    exact lookupA_foldl_eraseA_mem entry.users st.user_cache k hk
  · intro k hk
    exact ⟨lookupA_gfold_mem entry.groups st.group_cache k.1 k.2 true hk,
           lookupA_gfold_mem entry.groups st.group_cache k.1 k.2 false hk⟩
  · exact lookupA_eraseA_self st.event_mapping eid
  · unfold expire_event_cache
    rw [lookupA_eraseA_self st.event_mapping eid]

/-- C4 witness: a concrete state with event `ev1` touching one user pair and
one group pair — after expiry the memoized entries and the mapping entry are
gone, and a second expiry is a no-op. -/
theorem expire_event_cache_correct_witness :
    lookupA (expire_event_cache wRulesState "ev1").user_cache ("u1", ["chat", "admin"]) = none ∧
    lookupA (expire_event_cache wRulesState "ev1").group_cache ("g1", ["n"], true) = none ∧
    lookupA (expire_event_cache wRulesState "ev1").group_cache ("g1", ["n"], false) = none ∧
    lookupA (expire_event_cache wRulesState "ev1").event_mapping "ev1" = none ∧
    expire_event_cache (expire_event_cache wRulesState "ev1") "ev1" =
      expire_event_cache wRulesState "ev1" := by
  have h := expire_event_cache_correct wRulesState "ev1" wEventRecord rfl
  have hu := h.1 ("u1", ["chat", "admin"]) (by simp [wEventRecord])
  have hg := h.2.1 ("g1", ["n"]) (by simp [wEventRecord])
  exact ⟨hu, hg.1, hg.2, h.2.2.1, h.2.2.2⟩

/-- `bestMatch` finds nothing exactly when no entry matches. -/
theorem bestMatch_eq_none_iff (E : List PermNode) (q : List String) :
    bestMatch E q = none ↔ matchSpecs E q = [] := by
  induction E with
  | nil => simp [bestMatch, matchSpecs]
  | cons e rest ih =>
    cases hm : nodeMatch e q with
    | none =>
      simp only [bestMatch, bestStep, hm, matchSpecs, List.filterMap_cons] at ih ⊢
      exact ih
    | some s =>
      have hne : bestStep (bestMatch rest q) (some s) e.grant ≠ none := by
        unfold bestStep
        cases hp : bestMatch rest q with
        | none => simp
        | some p =>
          rcases p with ⟨s', g'⟩
          by_cases h1 : s' < s
          · simp [h1]
          · by_cases h2 : s = s'
            · simp [h1, h2]
            · simp [h1, h2]
      simp only [bestMatch, matchSpecs, List.filterMap_cons, hm]
      simp [hne]

/-- `matchSpecs` over a non-matching head entry. -/
theorem matchSpecs_cons_none {e : PermNode} {q : List String} (rest : List PermNode)
    (hm : nodeMatch e q = none) : matchSpecs (e :: rest) q = matchSpecs rest q := by
  simp [matchSpecs, List.filterMap_cons, hm]

/-- `matchSpecs` over a matching head entry. -/
theorem matchSpecs_cons_some {e : PermNode} {q : List String} {s : Nat}
    (rest : List PermNode) (hm : nodeMatch e q = some s) :
    matchSpecs (e :: rest) q = s :: matchSpecs rest q := by
  simp [matchSpecs, List.filterMap_cons, hm]

/-- Unfolding `bestMatch` on a cons with both sides matching. -/
theorem bestMatch_cons_some_some {e : PermNode} {q : List String} {s0 s1 : Nat}
    {g1 : Bool} (rest : List PermNode) (hm : nodeMatch e q = some s0)
    (hp : bestMatch rest q = some (s1, g1)) :
    bestMatch (e :: rest) q =
      if s1 < s0 then some (s0, e.grant)
      else if s0 = s1 then some (s0, e.grant && g1)
      else some (s1, g1) := by
  simp only [bestMatch, bestStep, hm, hp]

/-- The specificity found by `bestMatch` is attained and maximal among the
matching entries. -/
theorem bestMatch_spec_max (E : List PermNode) (q : List String) :
    ∀ s g, bestMatch E q = some (s, g) →
      s ∈ matchSpecs E q ∧ ∀ s' ∈ matchSpecs E q, s' ≤ s := by
  induction E with
  | nil => intro s g h; cases h
  | cons e rest ih =>
    intro s g h
    cases hm : nodeMatch e q with
    | none =>
      simp only [bestMatch, bestStep, hm] at h
      rw [matchSpecs_cons_none rest hm]
      exact ih s g h
    | some s0 =>
      rw [matchSpecs_cons_some rest hm]
      cases hp : bestMatch rest q with
      | none =>
        simp only [bestMatch, bestStep, hm, hp] at h
        obtain ⟨hs, hg⟩ := Prod.mk.injEq .. |>.mp (Option.some.inj h)
        subst hs
        have hnil : matchSpecs rest q = [] := (bestMatch_eq_none_iff rest q).mp hp
        rw [hnil]
        exact ⟨List.mem_singleton.mpr rfl, by
          intro s' hs'
          exact le_of_eq (List.mem_singleton.mp hs')⟩
      | some p =>
        rcases p with ⟨s1, g1⟩
        rw [bestMatch_cons_some_some rest hm hp] at h
        have hrest := ih s1 g1 hp
        by_cases h1 : s1 < s0
        · rw [if_pos h1] at h
          obtain ⟨hs, hg⟩ := Prod.mk.injEq .. |>.mp (Option.some.inj h)
          subst hs
          refine ⟨List.mem_cons_self _ _, ?_⟩
          intro s' hs'
          rcases List.mem_cons.mp hs' with h' | h'
          · exact le_of_eq h'
          · exact le_of_lt (lt_of_le_of_lt (hrest.2 s' h') h1)
        · rw [if_neg h1] at h
          by_cases h2 : s0 = s1
          · subst h2
            rw [if_pos rfl] at h
            obtain ⟨hs, hg⟩ := Prod.mk.injEq .. |>.mp (Option.some.inj h)
            subst hs
            refine ⟨List.mem_cons_self _ _, ?_⟩
            intro s' hs'
            rcases List.mem_cons.mp hs' with h' | h'
            · exact le_of_eq h'
            · exact hrest.2 s' h'
          · rw [if_neg h2] at h
            obtain ⟨hs, hg⟩ := Prod.mk.injEq .. |>.mp (Option.some.inj h)
            subst hs
            have h0le : s0 ≤ s1 := lt_of_le_of_ne (le_of_not_lt h1) h2 |>.le
            refine ⟨List.mem_cons_of_mem _ hrest.1, ?_⟩
            intro s' hs'
            rcases List.mem_cons.mp hs' with h' | h'
            · exact h' ▸ h0le
            · exact hrest.2 s' h'

/-- The grant flag found by `bestMatch` is true exactly when every entry
matching at the found (maximal) specificity is a grant — deny wins ties. -/
theorem bestMatch_grant_iff (E : List PermNode) (q : List String) :
    ∀ s g, bestMatch E q = some (s, g) →
      (g = true ↔ ∀ e ∈ E, nodeMatch e q = some s → e.grant = true) := by
  induction E with
  | nil => intro s g h; cases h
  | cons e rest ih =>
    intro s g h
    cases hm : nodeMatch e q with
    | none =>
      simp only [bestMatch, bestStep, hm] at h
      have hiff := ih s g h
      constructor
      · intro hg e' he' hme'
        rcases List.mem_cons.mp he' with h' | h'
        · subst h'; rw [hm] at hme'; cases hme'
        · exact (hiff.mp hg) e' h' hme'
      · intro hall
        exact hiff.mpr (fun e' he' hme' => hall e' (List.mem_cons_of_mem _ he') hme')
    | some s0 =>
      cases hp : bestMatch rest q with
      | none =>
        simp only [bestMatch, bestStep, hm, hp] at h
        obtain ⟨hs, hg⟩ := Prod.mk.injEq .. |>.mp (Option.some.inj h)
        subst hs
        have hnil : matchSpecs rest q = [] := (bestMatch_eq_none_iff rest q).mp hp
        have hrestnone : ∀ e' ∈ rest, nodeMatch e' q = none := by
          intro e' he'
          exact List.filterMap_eq_nil_iff.mp hnil e' he'
        constructor
        · intro hgt e' he' hme'
          rcases List.mem_cons.mp he' with h' | h'
          · subst h'; rw [hg]; exact hgt
          · rw [hrestnone e' h'] at hme'; cases hme'
        · intro hall
          rw [← hg]
          exact hall e (List.mem_cons_self e rest) hm
      | some p =>
        rcases p with ⟨s1, g1⟩
        rw [bestMatch_cons_some_some rest hm hp] at h
        have hrestmax := bestMatch_spec_max rest q s1 g1 hp
        by_cases h1 : s1 < s0
        · rw [if_pos h1] at h
          obtain ⟨hs, hg⟩ := Prod.mk.injEq .. |>.mp (Option.some.inj h)
          subst hs
          have hrestnot : ∀ e' ∈ rest, nodeMatch e' q ≠ some s0 := by
            intro e' he' hcon
            have hmem : s0 ∈ matchSpecs rest q := by
              simp only [matchSpecs, List.mem_filterMap]
              exact ⟨e', he', hcon⟩
            exact absurd (hrestmax.2 s0 hmem) (not_le_of_lt h1)
          constructor
          · intro hgt e' he' hme'
            rcases List.mem_cons.mp he' with h' | h'
            · subst h'; rw [hg]; exact hgt
            · exact absurd hme' (hrestnot e' h')
          · intro hall
            rw [← hg]
            exact hall e (List.mem_cons_self e rest) hm
        · rw [if_neg h1] at h
          by_cases h2 : s0 = s1
          · subst h2
            rw [if_pos rfl] at h
            obtain ⟨hs, hg⟩ := Prod.mk.injEq .. |>.mp (Option.some.inj h)
            subst hs
            have hiff := ih s0 g1 hp
            constructor
            · intro hgt e' he' hme'
              rw [← hg] at hgt
              rcases List.mem_cons.mp he' with h' | h'
              · subst h'; exact (Bool.and_eq_true_iff.mp hgt).1
              · exact hiff.mp (Bool.and_eq_true_iff.mp hgt).2 e' h' hme'
            · intro hall
              rw [← hg]
              refine Bool.and_eq_true_iff.mpr ⟨hall e (List.mem_cons_self e rest) hm, ?_⟩
              exact hiff.mpr (fun e' he' hme' => hall e' (List.mem_cons_of_mem _ he') hme')
          · rw [if_neg h2] at h
            obtain ⟨hs, hg⟩ := Prod.mk.injEq .. |>.mp (Option.some.inj h)
            subst hs
            have hiff := ih s1 g1 hp
            have hene : nodeMatch e q ≠ some s1 := by
              rw [hm]
              intro hcon
              exact h2 (Option.some.inj hcon)
            constructor
            · intro hgt e' he' hme'
              rcases List.mem_cons.mp he' with h' | h'
              · subst h'; exact absurd hme' hene
              · exact hiff.mp (hg ▸ hgt) e' h' hme'
            · intro hall
              rw [← hg]
              exact hiff.mpr (fun e' he' hme' => hall e' (List.mem_cons_of_mem _ he') hme')

/-- C2: `check_permission` selects, among the stored entries matching the
query node (identical path or wildcard ancestor prefix), the most specific
one and returns true iff every matching entry of that maximal specificity is
a grant (deny wins ties); with no matching entry it returns false
(default-deny).  In particular, for `["chat.*": deny, "chat.admin": grant]`
the query `chat.admin` yields true (explicit exact match outranks the
wildcard ancestor) and `chat.other` yields false, and at equal specificity a
deny beats a grant. -/
theorem check_permission_most_specific_deny_wins :
    (∀ (E : List PermNode) (q : List String),
      check_permission E q = true ↔
        ∃ s, s ∈ matchSpecs E q ∧ (∀ s' ∈ matchSpecs E q, s' ≤ s) ∧
          ∀ e ∈ E, nodeMatch e q = some s → e.grant = true) ∧
    (∀ (E : List PermNode) (q : List String),
      matchSpecs E q = [] → check_permission E q = false) ∧
    check_permission
      [⟨["chat"], true, false⟩, ⟨["chat", "admin"], false, true⟩]
      ["chat", "admin"] = true ∧
    check_permission
      [⟨["chat"], true, false⟩, ⟨["chat", "admin"], false, true⟩]
      ["chat", "other"] = false ∧
    check_permission
      [⟨["chat", "admin"], false, true⟩, ⟨["chat", "admin"], false, false⟩]
      ["chat", "admin"] = false := by
  refine ⟨?_, ?_, by decide, by decide, by decide⟩
  · intro E q
    unfold check_permission
    cases hb : bestMatch E q with
    | none =>
      have hnil := (bestMatch_eq_none_iff E q).mp hb
      simp [hnil]
    | some p =>
      rcases p with ⟨s0, g0⟩
      have hmax := bestMatch_spec_max E q s0 g0 hb
      have hiff := bestMatch_grant_iff E q s0 g0 hb
      constructor
      · intro hg
        exact ⟨s0, hmax.1, hmax.2, hiff.mp hg⟩
      · rintro ⟨s, hmem, hbound, hgrant⟩
        have hs : s = s0 := le_antisymm (hmax.2 s hmem) (hbound s0 hmax.1)
        exact hiff.mpr (hs ▸ hgrant)
  · intro E q hnil
    unfold check_permission
    rw [(bestMatch_eq_none_iff E q).mpr hnil]

/-- C2 witness: the characterization instantiated at concrete inputs —
default-deny on the empty entry list, and a grant through a single exactly
matching grant entry. -/
theorem check_permission_most_specific_deny_wins_witness :
    check_permission [] ["x"] = false ∧
    check_permission [⟨["a"], false, true⟩] ["a"] = true := by
  constructor
  · exact check_permission_most_specific_deny_wins.2.1 [] ["x"] rfl
  · exact (check_permission_most_specific_deny_wins.1
      [⟨["a"], false, true⟩] ["a"]).mpr ⟨1, by decide, by decide, by decide⟩

/-- An element is a member of the set after adding it. -/
theorem mem_insertS_self {α : Type} [DecidableEq α] (l : List α) (x : α) :
    x ∈ insertS l x := by
  unfold insertS
  by_cases h : x ∈ l <;> simp [h]

/-- The memoized group check never touches the event mapping or the
memoized user-check cache. -/
theorem check_group_cache_preserves :
    ∀ (st : RulesState) (gid : String) (perm : List String) (og : Bool),
      (check_group_permission_with_cache st gid perm og).2.event_mapping =
        st.event_mapping ∧
      (check_group_permission_with_cache st gid perm og).2.user_cache =
        st.user_cache := by
  intro st gid perm og
  unfold check_group_permission_with_cache
  cases h : lookupA st.group_cache (gid, perm, og) <;> simp [h]

/-- Registering a user and a group pair for an event records both pairs in
the event's entry. -/
theorem register_event_permission_records :
    ∀ (st : RulesState) (eid uid gid : String) (perm : List String),
      ∃ entry,
        lookupA (register_event_permission st eid (some uid) (some gid) perm).event_mapping
          eid = some entry ∧
        (uid, perm) ∈ entry.users ∧ (gid, perm) ∈ entry.groups := by
  intro st eid uid gid perm
  unfold register_event_permission
  refine ⟨_, lookupA_insertA_self _ _ _, ?_, ?_⟩
  · exact mem_insertS_self _ _
  · exact mem_insertS_self _ _

/-- C10: for every group-scoped event, `GroupPermissionChecker` registers
both the sender's `(user_id, node)` pair in the event's user set and the
`(group_id, node)` pair in its group set — the recorded tuples carry no
`only_group` flag, so the recorded mapping is identical for both flag
values — and end-of-event expiry therefore also invalidates the memoized
user-check entry for the message sender. -/
theorem group_checker_registers_sender :
    ∀ (st : RulesState) (gid uid : String) (perm : List String) (eid : String)
      (og : Bool),
      ∃ entry,
        lookupA ((groupChecker_check st og (PEvent.groupEvent gid uid) perm eid).2).event_mapping
          eid = some entry ∧
        (uid, perm) ∈ entry.users ∧
        (gid, perm) ∈ entry.groups ∧
        lookupA (expire_event_cache
            ((groupChecker_check st og (PEvent.groupEvent gid uid) perm eid).2) eid).user_cache
          (uid, perm) = none ∧
        ((groupChecker_check st true (PEvent.groupEvent gid uid) perm eid).2).event_mapping =
          ((groupChecker_check st false (PEvent.groupEvent gid uid) perm eid).2).event_mapping := by
  intro st gid uid perm eid og
  obtain ⟨entry, hmap, huser, hgroup⟩ :=
    register_event_permission_records st eid uid gid perm
  have hpres : ∀ og' : Bool,
      ((groupChecker_check st og' (PEvent.groupEvent gid uid) perm eid).2).event_mapping =
        (register_event_permission st eid (some uid) (some gid) perm).event_mapping := by
    intro og'
    exact (check_group_cache_preserves
      (register_event_permission st eid (some uid) (some gid) perm) gid perm og').1
  have hmap' : lookupA
      ((groupChecker_check st og (PEvent.groupEvent gid uid) perm eid).2).event_mapping eid =
      some entry := by
    rw [hpres og]
    exact hmap
  refine ⟨entry, hmap', huser, hgroup, ?_, ?_⟩
  · have hu := (expire_event_cache_correct
      ((groupChecker_check st og (PEvent.groupEvent gid uid) perm eid).2) eid entry hmap').1
    exact hu (uid, perm) huser
  · rw [hpres true, hpres false]

/-- C1 counterexample: member `u1` explicitly denies the exact node
`chat.admin` in its direct permissions (specificity 2), while its group `g`
only grants the strictly less specific wildcard `chat.*` (specificity 1);
the user-scoped resolution nevertheless returns a grant, because the group
memberships are consulted before the direct permissions. -/
theorem user_check_grants_despite_direct_deny :
    (check_user_permission_with_cache cexRules "u1" ["chat", "admin"]).1 = true ∧
    check_permission [⟨["chat", "admin"], false, false⟩] ["chat", "admin"] = false ∧
    nodeMatch ⟨["chat", "admin"], false, false⟩ ["chat", "admin"] = some 2 ∧
    nodeMatch ⟨["chat"], true, true⟩ ["chat", "admin"] = some 1 := by
  refine ⟨?_, by decide, by decide, by decide⟩
  decide

/-- C1 as the code actually behaves: on a memoization miss,
`_check_user_permission_with_cache` iterates the entity's permission-group
memberships first (skipping names failing `permission_group_exists`,
returning true on the first group whose permissions grant the node) and only
when no group grants does it evaluate the node-matching function over the
direct permissions: the result is the disjunction of the group-loop result
and the direct check, so a group-level grant overrides a direct explicit
deny. -/
theorem user_check_groups_first_disjunction :
    ∀ (st : RulesState) (uid : String) (perm : List String),
      lookupA st.user_cache (uid, perm) = none →
      (check_user_permission_with_cache st uid perm).1 =
        ((checkGroupsLoop
            (get_member_related_permission_groups
              (get_member_permission st.store uid PermType.user false).2
              uid PermType.user).2
            (get_member_related_permission_groups
              (get_member_permission st.store uid PermType.user false).2
              uid PermType.user).1.permission_groups
            perm).1 ||
          check_permission
            (get_member_permission st.store uid PermType.user false).1.permissions perm) := by
  intro st uid perm hmiss
  unfold check_user_permission_with_cache
  rw [hmiss]
  unfold check_user_permission
  cases hl : (checkGroupsLoop
      (get_member_related_permission_groups
        (get_member_permission st.store uid PermType.user false).2
        uid PermType.user).2
      (get_member_related_permission_groups
        (get_member_permission st.store uid PermType.user false).2
        uid PermType.user).1.permission_groups
      perm).1 <;> simp [hl]

/-- C1 witness: the disjunction shape instantiated at the concrete
counterexample state, where the memoization cache is empty. -/
theorem user_check_groups_first_disjunction_witness :
    (check_user_permission_with_cache cexRules "u1" ["chat", "admin"]).1 =
      ((checkGroupsLoop
          (get_member_related_permission_groups
            (get_member_permission cexRules.store "u1" PermType.user false).2
            "u1" PermType.user).2
          (get_member_related_permission_groups
            (get_member_permission cexRules.store "u1" PermType.user false).2
            "u1" PermType.user).1.permission_groups
          ["chat", "admin"]).1 ||
        check_permission
          (get_member_permission cexRules.store "u1" PermType.user false).1.permissions
          ["chat", "admin"]) :=
  user_check_groups_first_disjunction cexRules "u1" ["chat", "admin"] rfl

end Amrita
